import Mathlib

/-!
Verification development for `awsrolemanager.py`, a small tool that ingests
AWS STS credential payloads, appends them to the two on-disk configuration
stores (`~/.aws/credentials` and `~/.aws/config`), and offers an interactive
selector over the merged profiles.

The embedding models Python strings as `List Char` (so that Python's
character-level operations — `strip`, `split`, `startswith` — translate
directly), and Python `dict`s as association lists with Python's insertion
semantics: assigning to an existing key replaces its value in place (keeping
its position), assigning a fresh key appends it.  Stateful functions that
print or invoke the debugger are modelled with an explicit effect trace.
-/

/-- Python strings, modelled at the character level. -/
abbrev Str := List Char

/-- Convert a Lean string literal to the character-level model. -/
def str (s : String) : Str := s.data

/-- The set of characters removed by Python's `str.strip()`. -/
def isPySpace (c : Char) : Bool :=
  c = ' ' || c = '\t' || c = '\n' || c = '\r' || c = '\x0b' || c = '\x0c'

/-- Python `line.strip()`: remove whitespace from both ends. -/
def pyStrip (l : Str) : Str :=
  ((l.dropWhile isPySpace).reverse.dropWhile isPySpace).reverse

/-- A character stripped by Python's `line.strip('[]')`. -/
def isBracket (c : Char) : Bool := c = '[' || c = ']'

/-- Python `line.strip('[]')`: remove `[` and `]` characters from both ends. -/
def stripBrackets (l : Str) : Str :=
  ((l.dropWhile isBracket).reverse.dropWhile isBracket).reverse

/-- Auxiliary for `splitChar`: accumulates the current segment (reversed). -/
def splitCharAux (c : Char) : Str → Str → List Str
  | [], acc => [acc.reverse]
  | x :: xs, acc =>
    if x = c then acc.reverse :: splitCharAux c xs []
    else splitCharAux c xs (x :: acc)

/-- Python `s.split(c)` for a single-character separator: never drops empty
segments, and yields `[s]` when the separator does not occur. -/
def splitChar (c : Char) (l : Str) : List Str := splitCharAux c l []

/-- Python `line.split('=', 1)`: split at the first `=`, or fail (the
two-variable unpacking raises `ValueError`) when no `=` occurs. -/
def splitEqOnce : Str → Option (Str × Str)
  | [] => none
  | x :: xs =>
    if x = '=' then some ([], xs)
    else (splitEqOnce xs).map (fun kv => (x :: kv.1, kv.2))

/-- Attribute mapping of one section: a Python `dict` of string keys/values. -/
abbrev AttrDict := List (Str × Str)

/-- A parsed configuration store: ordered mapping section name → attributes. -/
abbrev Store := List (Str × AttrDict)

/-- First-match lookup in an association list (Python `d[k]` / `k in d`). -/
def pyLookup {β : Type} (k : Str) : List (Str × β) → Option β
  | [] => none
  | kv :: rest => if kv.1 = k then some kv.2 else pyLookup k rest

/-- Python `d[k] = v`: replace in place when the key exists (keeping its
position), append otherwise. -/
def pyDictInsert {β : Type} (d : List (Str × β)) (k : Str) (v : β) :
    List (Str × β) :=
  match d with
  | [] => [(k, v)]
  | kv :: rest => if kv.1 = k then (k, v) :: rest else kv :: pyDictInsert rest k v

/-- Python `a | b` on dicts: a copy of `a` updated with every entry of `b`,
so `b`'s value wins on every colliding key. -/
def pyUnion (a b : AttrDict) : AttrDict :=
  b.foldl (fun d kv => pyDictInsert d kv.1 kv.2) a

/-- Python `return_data[config_item][key] = value`: update one section's
dict inside the store. On all states reached by the parser the section is
present whenever `config_item` is nonempty. -/
def storeAdd (s : Store) (n k v : Str) : Store :=
  s.map (fun kv => if kv.1 = n then (kv.1, pyDictInsert kv.2 k v) else kv)

/-- Observable side effects of the Python code (prints, debugger entry,
table rendering, interactive prompt). -/
inductive Effect where
  | pdbSetTrace : Effect
  | printMsg (msg : Str) : Effect
  | printTable (names : List Str) : Effect
  | promptUser (msg : Str) : Effect
deriving DecidableEq

/-- The message of the `ValueError` raised by `key,value = line.split('=', 1)`
when the line contains no `=`. -/
def unpackErrMsg : Str := str "not enough values to unpack (expected 2, got 1)"

/-- Parser state of `parse_config_file`: the current section name
(`config_item`, initially the empty string) and the store built so far. -/
structure PState where
  item : Str
  store : Store
deriving DecidableEq

/-- One iteration of the line loop of `parse_config_file`, with its effect
trace. `none` is the `return None` taken on a line without `=`; that branch
first enters the debugger (`import pdb; pdb.set_trace()`) and prints the
offending line and the exception text. -/
def processLineE (st : PState) (raw : Str) : Option PState × List Effect :=
  let line := pyStrip raw
  if line.length = 0 then (some st, [])
  else if line.head? = some '#' then (some st, [])
  else if line.head? = some '[' then
    let ci := stripBrackets line
    (some ⟨ci, pyDictInsert st.store ci ([] : AttrDict)⟩, [])
  else
    match splitEqOnce line with
    | some kv =>
      if st.item = [] then (some st, [])
      else (some ⟨st.item, storeAdd st.store st.item (pyStrip kv.1) (pyStrip kv.2)⟩, [])
    | none =>
      (none,
        [Effect.pdbSetTrace,
         Effect.printMsg (str "[!] invalid line in configuration file: " ++ line),
         Effect.printMsg unpackErrMsg])

/-- The line loop of `parse_config_file` over a list of raw lines, with
effect trace; aborts at the first failing line. -/
def runLinesE : List Str → PState → Option PState × List Effect
  | [], st => (some st, [])
  | l :: ls, st =>
    match processLineE st l with
    | (none, e) => (none, e)
    | (some st2, e) =>
      match runLinesE ls st2 with
      | (r, e2) => (r, e ++ e2)

/-- Effect-free view of one parser step. -/
def processLine (st : PState) (raw : Str) : Option PState :=
  (processLineE st raw).1

/-- Effect-free view of the parser loop. -/
def runLines (ls : List Str) (st : PState) : Option PState :=
  (runLinesE ls st).1

/-- `parse_config_file` applied to the text of the file, with effect trace:
split on newlines, run the line loop from an empty state, return the store. -/
def parse_config_file_E (text : Str) : Option Store × List Effect :=
  match runLinesE (splitChar '\x0a' text) ⟨[], []⟩ with
  | (r, e) => (r.map PState.store, e)

/-- `parse_config_file`: the returned dictionary (`None` on a malformed line). -/
def parse_config_file (text : Str) : Option Store :=
  (parse_config_file_E text).1

/-- One iteration of the merge loop of `parse_configuration_data`:
`profiles[key] = value` or `profiles[key] = value | config_items[key]`. -/
def mergeStep (config_items : Store) (profiles : Store) (kv : Str × AttrDict) :
    Store :=
  match pyLookup kv.1 config_items with
  | none => pyDictInsert profiles kv.1 kv.2
  | some cv => pyDictInsert profiles kv.1 (pyUnion kv.2 cv)

/-- The merge loop of `parse_configuration_data`: one profile per credentials
section, attributes `value | config_items[key]` when the section also exists
in the config store. -/
def mergeProfiles (cred_items config_items : Store) : Store :=
  cred_items.foldl (mergeStep config_items) []

/-- The attributes the merge gives a credentials section: unchanged when the
section is absent from the config store, otherwise the union with the config
attributes winning. -/
def mergeVal (config_items : Store) (k : Str) (v : AttrDict) : AttrDict :=
  match pyLookup k config_items with
  | none => v
  | some cv => pyUnion v cv

/-- Well-formedness of a store as produced by the parser: section names are
distinct, and so are the keys within each section. -/
def StoreWF (s : Store) : Prop :=
  (s.map Prod.fst).Nodup ∧ ∀ kv ∈ s, (kv.2.map Prod.fst).Nodup

/-- `parse_configuration_data` with effect trace, over the texts of the config
and credentials files. Python's `if not config_items` treats both `None` and
the empty dict as failure, and the credentials file is not even parsed when
the config file yields no data. -/
def parse_configuration_data_E (configText credsText : Str) :
    Option Store × List Effect :=
  match parse_config_file_E configText with
  | (none, e1) => (none, e1)
  | (some config_items, e1) =>
    if config_items.isEmpty then (none, e1)
    else
      match parse_config_file_E credsText with
      | (none, e2) => (none, e1 ++ e2)
      | (some cred_items, e2) =>
        if cred_items.isEmpty then (none, e1 ++ e2)
        else (some (mergeProfiles cred_items config_items), e1 ++ e2)

/-- Effect-free view of `parse_configuration_data`. -/
def parse_configuration_data (configText credsText : Str) : Option Store :=
  (parse_configuration_data_E configText credsText).1

/-- `arn.split(':')[4]`, as a checked access (`none` is Python's IndexError). -/
def get_account_number_from_arn (arn : Str) : Option Str :=
  (splitChar ':' arn)[4]?

/-- `arn.split('/')[1]`, as a checked access. -/
def get_role_name_from_arn (arn : Str) : Option Str :=
  (splitChar '/' arn)[1]?

/-- `arn.split('/')[2]`, as a checked access. -/
def get_session_name_from_arn (arn : Str) : Option Str :=
  (splitChar '/' arn)[2]?

/-- The part of an ARN after its first five colon-delimited fields (the
resource path, e.g. `assumed-role/MyRole/MySession`), used to state the
claimed ARN invariant. -/
def arnResourcePath (arn : Str) : Str :=
  (List.intercalate (str ":") ((splitChar ':' arn).drop 5))

/-- The credential payload consumed by `save_credentials` (shape of the
ingested JSON object). -/
structure StsCreds where
  arn : Str
  accessKeyId : Str
  secretAccessKey : Str
  sessionToken : Str
  expiration : Str
deriving DecidableEq

/-- `save_credentials`: derive the profile name from the ARN and produce the
two text blocks appended to the credentials and config stores. `none` models
the uncaught IndexError of the ARN helpers (raised before any file is
opened). -/
def save_credentials (c : StsCreds) : Option (Str × Str × Str) :=
  match get_account_number_from_arn c.arn, get_role_name_from_arn c.arn,
      get_session_name_from_arn c.arn with
  | some account_number, some role_name, some session_name =>
    let profile_name := account_number ++ str "-" ++ role_name ++ str "-" ++ session_name
    let credBlock :=
      str "\n[" ++ profile_name ++ str "]\naws_access_key_id = " ++ c.accessKeyId
        ++ str "\naws_secret_access_key = " ++ c.secretAccessKey
        ++ str "\naws_session_token = " ++ c.sessionToken ++ str "\n"
    let configBlock :=
      str "\n[" ++ profile_name ++ str "]\nregion = us-east-1\noutput = json\nsession_name = "
        ++ session_name ++ str "\nexpiration = " ++ c.expiration
        ++ str "\nrole_name = " ++ role_name ++ str "\n"
    some (profile_name, credBlock, configBlock)
  | _, _, _ => none

/-- The ingestion path of `main` (no-argument invocation): decode the raw
standard-input text, and on success append the two blocks produced by
`save_credentials` to the stores. The JSON decoder is the Python standard
library, an external collaborator, so it is a parameter; `decode raw = none`
is `json.JSONDecodeError`. Result: printed message (if any) and the contents
of the two stores after the attempt. -/
def ingest (decode : Str → Option StsCreds) (raw : Str)
    (credStore configStore : Str) : Option Str × Str × Str :=
  match decode raw with
  | none => (some (str "[!] Invalid json: " ++ raw), credStore, configStore)
  | some c =>
    match save_credentials c with
    | none => (none, credStore, configStore)
    | some pcc =>
      (some (str "[*] Profile saved as " ++ pcc.1),
        credStore ++ pcc.2.1, configStore ++ pcc.2.2)

/-- Colors used by `termcolor.colored` in `print_table` (with `nocolor` for
the uncolored `"N/A"` cell). -/
inductive TermColor where
  | nocolor : TermColor
  | red : TermColor
  | yellow : TermColor
  | green : TermColor
deriving DecidableEq

/-- Python `int(x)` on a real number: truncation toward zero. -/
def pyTruncInt (q : ℚ) : ℤ :=
  if 0 ≤ q then ⌊q⌋ else ⌈q⌉

/-- Decimal rendering of a natural number (Python `str`/f-string). -/
def natToStr (n : Nat) : Str := (Nat.repr n).data

/-- Decimal rendering of an integer (Python f-string of an `int`). -/
def intToStr (i : Int) : Str :=
  if i < 0 then '-' :: natToStr i.natAbs else natToStr i.natAbs

/-- The expiration cell computed by `print_table` from the signed seconds
remaining (the value of `get_time_difference`): the "Expired … minutes ago"
branch, or whole seconds colored by the 600/60 thresholds. -/
def statusOfSeconds (s : ℚ) : Str × TermColor :=
  if s < 0 then
    (str "Expired " ++ natToStr (pyTruncInt (s / 60)).natAbs ++ str " minutes ago",
      TermColor.red)
  else
    let c := TermColor.green
    let c := if pyTruncInt s < 600 then TermColor.yellow else c
    let c := if pyTruncInt s < 60 then TermColor.red else c
    (intToStr (pyTruncInt s) ++ str " seconds", c)

/-- The whole status cell of one row of `print_table`: `"N/A"` (uncolored)
when the profile has no `expiration` attribute, otherwise the status of its
seconds remaining. `timeDiff` abstracts `get_time_difference` (its value
depends on the current UTC instant). -/
def rowStatus (timeDiff : Str → ℚ) (attrs : AttrDict) : Str × TermColor :=
  match pyLookup (str "expiration") attrs with
  | none => (str "N/A", TermColor.nocolor)
  | some ts => statusOfSeconds (timeDiff ts)

/-- The ordered list of profile names displayed and returned by
`print_table` for the given merged data. -/
def displayedNames (data : Store) : List Str := data.map Prod.fst

/-- Events arriving at the `input()` call of the selection loop. -/
inductive InputEvent where
  | interrupt : InputEvent
  | text (s : Str) : InputEvent
deriving DecidableEq

/-- Outcome of the selection loop. -/
inductive SelResult where
  | selected (k : Int) : SelResult
  | cancelled : SelResult
  | exhausted : SelResult
deriving DecidableEq

/-- Digit-string to number, for the model of Python `int(...)`. -/
def digitsToNat? (l : Str) : Option Nat :=
  if l ≠ [] ∧ l.all Char.isDigit then
    some (l.foldl (fun a c => a * 10 + (c.toNat - 48)) 0)
  else none

/-- Model of Python `int(s)` on a string: optional surrounding whitespace,
optional sign, decimal digits; `none` is `ValueError`. -/
def pyInt? (s : Str) : Option Int :=
  match pyStrip s with
  | '-' :: rest => (digitsToNat? rest).map (fun n => -(n : Int))
  | '+' :: rest => (digitsToNat? rest).map (fun n => (n : Int))
  | t => (digitsToNat? t).map (fun n => (n : Int))

/-- The prompt printed by the selection loop. -/
def promptText (n : Nat) : Str :=
  str "Select a role [1 - " ++ natToStr n ++ str "]: "

/-- The re-prompt message on an out-of-range selection. -/
def invalidSelMsg (n : Nat) : Str :=
  str "[!] Invalid selection. Pick a number between 1 - " ++ natToStr n

/-- The `while role_number not in range(1, number_of_roles+1)` loop of
`run_ui`, driven by the list of input events: re-prompts on a non-numeric or
out-of-range entry, returns cleanly on `KeyboardInterrupt`, and only ever
exits the loop with an in-range selection. -/
def selectLoopE (n : Nat) : List InputEvent → SelResult × List Effect
  | [] => (SelResult.exhausted, [])
  | InputEvent.interrupt :: _ =>
    (SelResult.cancelled,
      [Effect.promptUser (promptText n), Effect.printMsg (str "\n")])
  | InputEvent.text s :: rest =>
    match pyInt? s with
    | none =>
      ((selectLoopE n rest).1,
        Effect.promptUser (promptText n)
          :: Effect.printMsg (str "[!] Not a valid number")
          :: (selectLoopE n rest).2)
    | some k =>
      if 1 ≤ k ∧ k ≤ (n : Int) then
        (SelResult.selected k, [Effect.promptUser (promptText n)])
      else
        ((selectLoopE n rest).1,
          Effect.promptUser (promptText n)
            :: Effect.printMsg (invalidSelMsg n)
            :: (selectLoopE n rest).2)

/-- Effect-free view of the selection loop. -/
def selectLoop (n : Nat) (inputs : List InputEvent) : SelResult :=
  (selectLoopE n inputs).1

/-- `run_ui` with effect trace, over the texts of the two stores and the
stream of interactive inputs. The first component is the profile name passed
to `launch_role` (none when nothing is launched). -/
def run_ui_E (configText credsText : Str) (inputs : List InputEvent) :
    Option Str × List Effect :=
  match parse_configuration_data_E configText credsText with
  | (none, e) => (none, e)
  | (some data, e) =>
    if data.isEmpty then (none, e)
    else
      let keys := displayedNames data
      let e2 := e ++ [Effect.printTable keys]
      if keys.length = 0 then
        (none, e2 ++ [Effect.printMsg (str "[*] No configured roles found")])
      else
        match selectLoopE keys.length inputs with
        | (SelResult.selected r, e3) => (keys[r.toNat - 1]?, e2 ++ e3)
        | (_, e3) => (none, e2 ++ e3)

/-- The profile launched by `run_ui` (effect-free view). -/
def run_ui_launch (configText credsText : Str) (inputs : List InputEvent) :
    Option Str :=
  (run_ui_E configText credsText inputs).1

/-- The ordered list of profile names `run_ui` displays (empty when the
configuration read yields no data). -/
def profileNames (configText credsText : Str) : List Str :=
  match parse_configuration_data configText credsText with
  | none => []
  | some data => displayedNames data

/-- The key/value pairs of a section body: the lines from the start of the
list up to (excluding) the next section header, folded into a dict exactly
as the parser would. Used to state what "the pairs of a section occurrence"
means. -/
def sectionScan (d : AttrDict) : List Str → AttrDict
  | [] => d
  | l :: ls =>
    let t := pyStrip l
    if t.length = 0 then sectionScan d ls
    else if t.head? = some '#' then sectionScan d ls
    else if t.head? = some '[' then d
    else
      match splitEqOnce t with
      | some kv => sectionScan (pyDictInsert d (pyStrip kv.1) (pyStrip kv.2)) ls
      | none => d

/-- A raw line that the parser treats as a section header. -/
def isHeaderLine (l : Str) : Bool :=
  (pyStrip l).head? = some '['

/-- The section name a header line opens. -/
def headerName (l : Str) : Str :=
  stripBrackets (pyStrip l)

/-- A line that is non-blank, not a comment, not a section header, and
contains no `=` — the fatal case of the parser. -/
def isBadLine (l : Str) : Bool :=
  !(pyStrip l).isEmpty
    && !((pyStrip l).head? == some '#')
    && !((pyStrip l).head? == some '[')
    && !((pyStrip l).contains '=')

/-- Position of the first occurrence of an element in a list (used to state
that a duplicated section keeps the position of its first occurrence). -/
def firstPos (a : Str) : List Str → Nat
  | [] => 0
  | x :: xs => if x = a then 0 else firstPos a xs + 1

/-- The round-trip payload of the spec's testable properties: the ARN
`arn:aws:sts::123456789012:assumed-role/MyRole/MySession` with expiration
`2030-01-01T00:00:00+00:00`. -/
def samplePayload : StsCreds :=
  ⟨str "arn:aws:sts::123456789012:assumed-role/MyRole/MySession",
   str "AKIDEXAMPLE", str "SECRETEXAMPLE", str "TOKENEXAMPLE",
   str "2030-01-01T00:00:00+00:00"⟩

theorem pyLookup_eq_none_iff {β : Type} (k : Str) (d : List (Str × β)) :
    pyLookup k d = none ↔ k ∉ d.map Prod.fst := by
  induction d with
  | nil => simp [pyLookup]
  | cons kv rest ih =>
    by_cases h : kv.1 = k
    · simp only [pyLookup, if_pos h, List.map_cons, List.mem_cons]
      apply iff_of_false
      · exact fun hc => Option.noConfusion hc
      · exact fun hc => hc (Or.inl h.symm)
    · have h2 : ¬ k = kv.1 := fun he => h he.symm
      simp only [pyLookup, if_neg h, List.map_cons, List.mem_cons, ih]
      exact ⟨fun hn hc => hc.elim h2 hn, fun hc hm => hc (Or.inr hm)⟩

theorem keys_pyDictInsert {β : Type} (d : List (Str × β)) (k : Str) (v : β) :
    (pyDictInsert d k v).map Prod.fst =
      if k ∈ d.map Prod.fst then d.map Prod.fst else d.map Prod.fst ++ [k] := by
  induction d with
  | nil => simp [pyDictInsert]
  | cons kv rest ih =>
    by_cases h : kv.1 = k
    · simp [pyDictInsert, h, -List.mem_map]
    · have h2 : ¬ k = kv.1 := fun he => h he.symm
      by_cases hm : k ∈ rest.map Prod.fst
      · simp [pyDictInsert, h, h2, hm, ih, -List.mem_map]
      · simp [pyDictInsert, h, h2, hm, ih, -List.mem_map]

theorem pyLookup_pyDictInsert_self {β : Type} (d : List (Str × β)) (k : Str) (v : β) :
    pyLookup k (pyDictInsert d k v) = some v := by
  induction d with
  | nil => simp [pyDictInsert, pyLookup]
  | cons kv rest ih =>
    by_cases h : kv.1 = k
    · simp [pyDictInsert, h, pyLookup]
    · simp [pyDictInsert, h, pyLookup, ih]

theorem pyLookup_pyDictInsert_ne {β : Type} (d : List (Str × β)) (k k' : Str) (v : β)
    (h : k' ≠ k) : pyLookup k' (pyDictInsert d k v) = pyLookup k' d := by
  induction d with
  | nil => simp [pyDictInsert, pyLookup, h.symm]
  | cons kv rest ih =>
    by_cases hh : kv.1 = k
    · simp [pyDictInsert, hh, pyLookup, h.symm]
    · by_cases hk : kv.1 = k'
      · simp [pyDictInsert, hh, pyLookup, hk, h]
      · simp [pyDictInsert, hh, pyLookup, hk, ih]

theorem mem_pyDictInsert {β : Type} (d : List (Str × β)) (k : Str) (v : β)
    (kv : Str × β) (h : kv ∈ pyDictInsert d k v) : kv = (k, v) ∨ kv ∈ d := by
  induction d with
  | nil => simpa [pyDictInsert] using h
  | cons kv0 rest ih =>
    by_cases hh : kv0.1 = k
    · simp only [pyDictInsert, if_pos hh, List.mem_cons] at h
      rcases h with h | h
      · exact Or.inl h
      · exact Or.inr (List.mem_cons_of_mem _ h)
    · simp only [pyDictInsert, if_neg hh, List.mem_cons] at h
      rcases h with h | h
      · exact Or.inr (h ▸ List.mem_cons_self _ _)
      · rcases ih h with h2 | h2
        · exact Or.inl h2
        · exact Or.inr (List.mem_cons_of_mem _ h2)

theorem nodup_keys_pyDictInsert {β : Type} (d : List (Str × β)) (k : Str) (v : β)
    (h : (d.map Prod.fst).Nodup) : ((pyDictInsert d k v).map Prod.fst).Nodup := by
  rw [keys_pyDictInsert]
  by_cases hm : k ∈ d.map Prod.fst
  · simpa [hm] using h
  · rw [if_neg hm]
    refine List.Nodup.append h (List.nodup_singleton k) ?_
    intro a ha hb
    rw [List.mem_singleton] at hb
    exact hm (hb ▸ ha)

theorem pyLookup_pyUnion_not_mem (a b : AttrDict) (k : Str)
    (h : k ∉ b.map Prod.fst) : pyLookup k (pyUnion a b) = pyLookup k a := by
  induction b generalizing a with
  | nil => simp [pyUnion]
  | cons kv rest ih =>
    simp only [List.map_cons, List.mem_cons, not_or] at h
    have hstep : pyUnion a (kv :: rest) = pyUnion (pyDictInsert a kv.1 kv.2) rest := rfl
    rw [hstep, ih _ h.2, pyLookup_pyDictInsert_ne _ _ _ _ h.1]

theorem pyLookup_pyUnion (a b : AttrDict) (k : Str)
    (hb : (b.map Prod.fst).Nodup) :
    pyLookup k (pyUnion a b) =
      match pyLookup k b with
      | some x => some x
      | none => pyLookup k a := by
  induction b generalizing a with
  | nil => simp [pyUnion, pyLookup]
  | cons kv rest ih =>
    simp only [List.map_cons, List.nodup_cons] at hb
    have hstep : pyUnion a (kv :: rest) = pyUnion (pyDictInsert a kv.1 kv.2) rest := rfl
    rw [hstep]
    by_cases h : kv.1 = k
    · subst h
      rw [pyLookup_pyUnion_not_mem _ _ _ hb.1, pyLookup_pyDictInsert_self]
      simp [pyLookup]
    · rw [ih _ hb.2]
      cases hr : pyLookup k rest with
      | none =>
        simp [pyLookup, h, hr, pyLookup_pyDictInsert_ne _ _ _ _ (fun he => h he.symm)]
      | some x => simp [pyLookup, h, hr]

theorem keys_storeAdd (s : Store) (n k v : Str) :
    (storeAdd s n k v).map Prod.fst = s.map Prod.fst := by
  induction s with
  | nil => rfl
  | cons kv rest ih =>
    show ((if kv.1 = n then (kv.1, pyDictInsert kv.2 k v) else kv) ::
        storeAdd rest n k v).map Prod.fst = _
    by_cases h : kv.1 = n <;> simp [h, ih]

theorem pyLookup_storeAdd_self (s : Store) (n k v : Str) (d : AttrDict)
    (h : pyLookup n s = some d) :
    pyLookup n (storeAdd s n k v) = some (pyDictInsert d k v) := by
  induction s with
  | nil => simp [pyLookup] at h
  | cons kv rest ih =>
    show pyLookup n ((if kv.1 = n then (kv.1, pyDictInsert kv.2 k v) else kv) ::
        storeAdd rest n k v) = _
    by_cases hh : kv.1 = n
    · simp only [pyLookup, if_pos hh] at h
      rw [Option.some_inj] at h
      simp [pyLookup, hh, h]
    · simp only [pyLookup, if_neg hh] at h
      simp [pyLookup, hh, ih h]

theorem pyLookup_storeAdd_ne (s : Store) (n m k v : Str) (h : n ≠ m) :
    pyLookup n (storeAdd s m k v) = pyLookup n s := by
  induction s with
  | nil => rfl
  | cons kv rest ih =>
    show pyLookup n ((if kv.1 = m then (kv.1, pyDictInsert kv.2 k v) else kv) ::
        storeAdd rest m k v) = _
    by_cases hh : kv.1 = m
    · have hn : ¬ kv.1 = n := fun he => h (he.symm.trans hh)
      simp [pyLookup, hh, hn, ih, Ne.symm h]
    · by_cases hn : kv.1 = n
      · simp [pyLookup, hh, hn, h]
      · simp [pyLookup, hh, hn, ih, h]

theorem storeWF_pyDictInsert_empty (s : Store) (n : Str) (h : StoreWF s) :
    StoreWF (pyDictInsert s n ([] : AttrDict)) := by
  constructor
  · exact nodup_keys_pyDictInsert _ _ _ h.1
  · intro kv hkv
    rcases mem_pyDictInsert _ _ _ _ hkv with he | he
    · subst he
      simp
    · exact h.2 kv he

theorem storeWF_storeAdd (s : Store) (n k v : Str) (h : StoreWF s) :
    StoreWF (storeAdd s n k v) := by
  constructor
  · rw [keys_storeAdd]
    exact h.1
  · intro kv hkv
    unfold storeAdd at hkv
    rcases List.mem_map.mp hkv with ⟨kv0, hkv0, heq⟩
    by_cases hh : kv0.1 = n
    · simp only [if_pos hh] at heq
      subst heq
      exact nodup_keys_pyDictInsert _ _ _ (h.2 kv0 hkv0)
    · simp only [if_neg hh] at heq
      subst heq
      exact h.2 kv0 hkv0

theorem splitEqOnce_eq_none_iff (l : Str) : splitEqOnce l = none ↔ '=' ∉ l := by
  induction l with
  | nil => simp [splitEqOnce]
  | cons c cs ih =>
    by_cases h : c = '='
    · simp [splitEqOnce, h]
    · have h2 : ¬ ('=' : Char) = c := fun he => h he.symm
      simp [splitEqOnce, h, h2, ih, Option.map_eq_none']

theorem processLine_blank (st : PState) (l : Str) (h : pyStrip l = []) :
    processLine st l = some st := by
  simp [processLine, processLineE, h]

theorem processLine_comment (st : PState) (l : Str)
    (h : (pyStrip l).head? = some '#') : processLine st l = some st := by
  cases hl : pyStrip l with
  | nil => rw [hl] at h; exact absurd h (by simp)
  | cons c cs =>
    rw [hl] at h
    simp only [List.head?_cons, Option.some.injEq] at h
    subst h
    simp [processLine, processLineE, hl]

theorem processLine_header (st : PState) (l : Str)
    (h : (pyStrip l).head? = some '[') :
    processLine st l =
      some ⟨headerName l, pyDictInsert st.store (headerName l) ([] : AttrDict)⟩ := by
  cases hl : pyStrip l with
  | nil => rw [hl] at h; exact absurd h (by simp)
  | cons c cs =>
    rw [hl] at h
    simp only [List.head?_cons, Option.some.injEq] at h
    subst h
    have hne : ¬ (('[' : Char) = '#') := by decide
    simp [processLine, processLineE, headerName, hl, hne]

theorem processLine_kv (st : PState) (l : Str) (kv : Str × Str)
    (h2 : (pyStrip l).head? ≠ some '#') (h3 : (pyStrip l).head? ≠ some '[')
    (hs : splitEqOnce (pyStrip l) = some kv) :
    processLine st l =
      (if st.item = [] then some st
       else some ⟨st.item, storeAdd st.store st.item (pyStrip kv.1) (pyStrip kv.2)⟩) := by
  have hne : pyStrip l ≠ [] := by
    intro he
    rw [he] at hs
    exact absurd hs (by simp [splitEqOnce])
  have hlen : ¬ (pyStrip l).length = 0 := by simpa [List.length_eq_zero] using hne
  by_cases hi : st.item = []
  · rw [if_pos hi]
    simp [processLine, processLineE, hlen, h2, h3, hs, hi]
  · rw [if_neg hi]
    simp [processLine, processLineE, hlen, h2, h3, hs, hi]

theorem processLine_err (st : PState) (l : Str)
    (h1 : pyStrip l ≠ []) (h2 : (pyStrip l).head? ≠ some '#')
    (h3 : (pyStrip l).head? ≠ some '[') (hs : splitEqOnce (pyStrip l) = none) :
    processLine st l = none := by
  have hlen : ¬ (pyStrip l).length = 0 := by simpa [List.length_eq_zero] using h1
  simp [processLine, processLineE, hlen, h2, h3, hs]

theorem processLine_bad (st : PState) (l : Str) (h : isBadLine l = true) :
    processLine st l = none := by
  simp only [isBadLine, Bool.and_eq_true, Bool.not_eq_true'] at h
  obtain ⟨⟨⟨h1, h2⟩, h3⟩, h4⟩ := h
  apply processLine_err st l
  · simpa [List.isEmpty_iff] using h1
  · simpa using h2
  · simpa using h3
  · rw [splitEqOnce_eq_none_iff]
    simpa using h4

theorem runLines_nil (st : PState) : runLines [] st = some st := rfl

theorem runLines_cons (l : Str) (ls : List Str) (st : PState) :
    runLines (l :: ls) st =
      match processLine st l with
      | none => none
      | some st2 => runLines ls st2 := by
  unfold runLines processLine
  show (match processLineE st l with
    | (none, e) => (none, e)
    | (some st2, e) =>
      match runLinesE ls st2 with
      | (r, e2) => (r, e ++ e2)).1 = _
  rcases hp : processLineE st l with ⟨o, e⟩
  cases o with
  | none => simp
  | some st2 =>
    rcases hr : runLinesE ls st2 with ⟨r, e2⟩
    simp [hr]

theorem runLines_cons_some (l : Str) (ls : List Str) (st st' : PState)
    (h : runLines (l :: ls) st = some st') :
    ∃ st2, processLine st l = some st2 ∧ runLines ls st2 = some st' := by
  rw [runLines_cons] at h
  cases hp : processLine st l with
  | none => rw [hp] at h; exact absurd h (by simp)
  | some st2 => rw [hp] at h; exact ⟨st2, rfl, h⟩

theorem runLines_append (a b : List Str) (st : PState) :
    runLines (a ++ b) st =
      match runLines a st with
      | none => none
      | some st2 => runLines b st2 := by
  induction a generalizing st with
  | nil => simp [runLines_nil]
  | cons l ls ih =>
    rw [List.cons_append, runLines_cons, runLines_cons]
    cases hp : processLine st l with
    | none => rfl
    | some st2 => simp [ih]

theorem runLines_none_of_bad (ls : List Str) (st : PState)
    (h : ∃ l ∈ ls, isBadLine l = true) : runLines ls st = none := by
  induction ls generalizing st with
  | nil => simp at h
  | cons l rest ih =>
    rcases h with ⟨l0, hmem, hbad⟩
    rcases List.mem_cons.mp hmem with he | hm
    · subst he
      rw [runLines_cons, processLine_bad st l0 hbad]
    · rw [runLines_cons]
      cases hp : processLine st l with
      | none => rfl
      | some st2 =>
        show runLines rest st2 = none
        exact ih st2 ⟨l0, hm, hbad⟩

theorem processLine_wf (st st2 : PState) (l : Str)
    (h : processLine st l = some st2) (hwf : StoreWF st.store) :
    StoreWF st2.store := by
  by_cases h1 : pyStrip l = []
  · rw [processLine_blank st l h1, Option.some_inj] at h
    subst h
    exact hwf
  by_cases h2 : (pyStrip l).head? = some '#'
  · rw [processLine_comment st l h2, Option.some_inj] at h
    subst h
    exact hwf
  by_cases h3 : (pyStrip l).head? = some '['
  · rw [processLine_header st l h3, Option.some_inj] at h
    subst h
    exact storeWF_pyDictInsert_empty _ _ hwf
  cases hs : splitEqOnce (pyStrip l) with
  | none => rw [processLine_err st l h1 h2 h3 hs] at h; cases h
  | some kv =>
    rw [processLine_kv st l kv h2 h3 hs] at h
    by_cases hi : st.item = []
    · rw [if_pos hi, Option.some_inj] at h
      subst h
      exact hwf
    · rw [if_neg hi, Option.some_inj] at h
      subst h
      exact storeWF_storeAdd _ _ _ _ hwf

theorem runLines_wf (ls : List Str) (st st' : PState)
    (h : runLines ls st = some st') (hwf : StoreWF st.store) :
    StoreWF st'.store := by
  induction ls generalizing st with
  | nil => rw [runLines_nil, Option.some_inj] at h; subst h; exact hwf
  | cons l rest ih =>
    rcases runLines_cons_some l rest st st' h with ⟨st2, hp, hrest⟩
    exact ih st2 hrest (processLine_wf st st2 l hp hwf)

theorem processLine_keys (st st2 : PState) (l : Str)
    (h : processLine st l = some st2) :
    ∃ t, st2.store.map Prod.fst = st.store.map Prod.fst ++ t := by
  by_cases h1 : pyStrip l = []
  · rw [processLine_blank st l h1, Option.some_inj] at h
    subst h
    exact ⟨[], by simp⟩
  by_cases h2 : (pyStrip l).head? = some '#'
  · rw [processLine_comment st l h2, Option.some_inj] at h
    subst h
    exact ⟨[], by simp⟩
  by_cases h3 : (pyStrip l).head? = some '['
  · rw [processLine_header st l h3, Option.some_inj] at h
    subst h
    show ∃ t, (pyDictInsert st.store (headerName l) ([] : AttrDict)).map Prod.fst = _
    rw [keys_pyDictInsert]
    by_cases hm : headerName l ∈ st.store.map Prod.fst
    · exact ⟨[], by simp [hm]⟩
    · exact ⟨[headerName l], by simp [hm]⟩
  cases hs : splitEqOnce (pyStrip l) with
  | none => rw [processLine_err st l h1 h2 h3 hs] at h; cases h
  | some kv =>
    rw [processLine_kv st l kv h2 h3 hs] at h
    by_cases hi : st.item = []
    · rw [if_pos hi, Option.some_inj] at h
      subst h
      exact ⟨[], by simp⟩
    · rw [if_neg hi, Option.some_inj] at h
      subst h
      exact ⟨[], by simp [keys_storeAdd]⟩

theorem runLines_keys (ls : List Str) (st st' : PState)
    (h : runLines ls st = some st') :
    ∃ t, st'.store.map Prod.fst = st.store.map Prod.fst ++ t := by
  induction ls generalizing st with
  | nil =>
    rw [runLines_nil, Option.some_inj] at h
    subst h
    exact ⟨[], by simp⟩
  | cons l rest ih =>
    rcases runLines_cons_some l rest st st' h with ⟨st2, hp, hrest⟩
    rcases processLine_keys st st2 l hp with ⟨t1, ht1⟩
    rcases ih st2 hrest with ⟨t2, ht2⟩
    exact ⟨t1 ++ t2, by rw [ht2, ht1, List.append_assoc]⟩

theorem firstPos_append (a : Str) (l t : List Str) (h : a ∈ l) :
    firstPos a (l ++ t) = firstPos a l := by
  induction l with
  | nil => simp at h
  | cons x xs ih =>
    by_cases hx : x = a
    · simp [firstPos, hx]
    · rcases List.mem_cons.mp h with he | hm
      · exact absurd he.symm hx
      · simp [firstPos, hx, ih hm]

theorem isHeaderLine_iff (l : Str) :
    isHeaderLine l = true ↔ (pyStrip l).head? = some '[' := by
  simp [isHeaderLine]

theorem sectionScan_blank (d : AttrDict) (l : Str) (ls : List Str)
    (h : pyStrip l = []) : sectionScan d (l :: ls) = sectionScan d ls := by
  simp [sectionScan, h]

theorem sectionScan_comment (d : AttrDict) (l : Str) (ls : List Str)
    (h : (pyStrip l).head? = some '#') :
    sectionScan d (l :: ls) = sectionScan d ls := by
  cases hl : pyStrip l with
  | nil => rw [hl] at h; exact absurd h (by simp)
  | cons c cs =>
    rw [hl] at h
    simp only [List.head?_cons, Option.some.injEq] at h
    subst h
    simp [sectionScan, hl]

theorem sectionScan_header (d : AttrDict) (l : Str) (ls : List Str)
    (h : (pyStrip l).head? = some '[') : sectionScan d (l :: ls) = d := by
  cases hl : pyStrip l with
  | nil => rw [hl] at h; exact absurd h (by simp)
  | cons c cs =>
    rw [hl] at h
    simp only [List.head?_cons, Option.some.injEq] at h
    subst h
    have hne : ¬ (('[' : Char) = '#') := by decide
    simp [sectionScan, hl, hne]

theorem sectionScan_kv (d : AttrDict) (l : Str) (ls : List Str) (kv : Str × Str)
    (h2 : (pyStrip l).head? ≠ some '#') (h3 : (pyStrip l).head? ≠ some '[')
    (hs : splitEqOnce (pyStrip l) = some kv) :
    sectionScan d (l :: ls) =
      sectionScan (pyDictInsert d (pyStrip kv.1) (pyStrip kv.2)) ls := by
  have hne : pyStrip l ≠ [] := by
    intro he
    rw [he] at hs
    exact absurd hs (by simp [splitEqOnce])
  have hlen : ¬ (pyStrip l).length = 0 := by simpa [List.length_eq_zero] using hne
  simp [sectionScan, hlen, h2, h3, hs]

theorem runLines_frozen (n : Str) (ls : List Str) (st st' : PState)
    (hitem : st.item ≠ n)
    (hno : ∀ l ∈ ls, ¬(isHeaderLine l = true ∧ headerName l = n))
    (h : runLines ls st = some st') :
    pyLookup n st'.store = pyLookup n st.store := by
  induction ls generalizing st with
  | nil => rw [runLines_nil, Option.some_inj] at h; subst h; rfl
  | cons l rest ih =>
    rcases runLines_cons_some l rest st st' h with ⟨st2, hp, hrest⟩
    have hnoRest : ∀ l2 ∈ rest, ¬(isHeaderLine l2 = true ∧ headerName l2 = n) :=
      fun l2 hm => hno l2 (List.mem_cons_of_mem _ hm)
    by_cases h1 : pyStrip l = []
    · rw [processLine_blank st l h1, Option.some_inj] at hp
      subst hp
      exact ih st hitem hnoRest hrest
    by_cases h2 : (pyStrip l).head? = some '#'
    · rw [processLine_comment st l h2, Option.some_inj] at hp
      subst hp
      exact ih st hitem hnoRest hrest
    by_cases h3 : (pyStrip l).head? = some '['
    · rw [processLine_header st l h3, Option.some_inj] at hp
      have hhn : headerName l ≠ n := by
        intro he
        exact hno l (List.mem_cons_self _ _) ⟨(isHeaderLine_iff l).mpr h3, he⟩
      subst hp
      rw [ih _ hhn hnoRest hrest]
      exact pyLookup_pyDictInsert_ne _ _ _ _ (Ne.symm hhn)
    cases hs : splitEqOnce (pyStrip l) with
    | none => rw [processLine_err st l h1 h2 h3 hs] at hp; cases hp
    | some kv =>
      rw [processLine_kv st l kv h2 h3 hs] at hp
      by_cases hi : st.item = []
      · rw [if_pos hi, Option.some_inj] at hp
        subst hp
        exact ih st hitem hnoRest hrest
      · rw [if_neg hi, Option.some_inj] at hp
        subst hp
        rw [ih ⟨st.item, storeAdd st.store st.item (pyStrip kv.1) (pyStrip kv.2)⟩
          hitem hnoRest hrest]
        exact pyLookup_storeAdd_ne _ _ _ _ _ (Ne.symm hitem)

theorem runLines_section (n : Str) (ls : List Str) (st st' : PState) (d : AttrDict)
    (hitem : st.item = n) (hn : n ≠ [])
    (hd : pyLookup n st.store = some d)
    (hno : ∀ l ∈ ls, ¬(isHeaderLine l = true ∧ headerName l = n))
    (h : runLines ls st = some st') :
    pyLookup n st'.store = some (sectionScan d ls) := by
  induction ls generalizing st d with
  | nil =>
    rw [runLines_nil, Option.some_inj] at h
    subst h
    simpa [sectionScan] using hd
  | cons l rest ih =>
    rcases runLines_cons_some l rest st st' h with ⟨st2, hp, hrest⟩
    have hnoRest : ∀ l2 ∈ rest, ¬(isHeaderLine l2 = true ∧ headerName l2 = n) :=
      fun l2 hm => hno l2 (List.mem_cons_of_mem _ hm)
    by_cases h1 : pyStrip l = []
    · rw [processLine_blank st l h1, Option.some_inj] at hp
      subst hp
      rw [sectionScan_blank d l rest h1]
      exact ih st d hitem hd hnoRest hrest
    by_cases h2 : (pyStrip l).head? = some '#'
    · rw [processLine_comment st l h2, Option.some_inj] at hp
      subst hp
      rw [sectionScan_comment d l rest h2]
      exact ih st d hitem hd hnoRest hrest
    by_cases h3 : (pyStrip l).head? = some '['
    · rw [processLine_header st l h3, Option.some_inj] at hp
      have hhn : headerName l ≠ n := by
        intro he
        exact hno l (List.mem_cons_self _ _) ⟨(isHeaderLine_iff l).mpr h3, he⟩
      subst hp
      rw [sectionScan_header d l rest h3]
      rw [runLines_frozen n rest _ _ hhn hnoRest hrest]
      rw [pyLookup_pyDictInsert_ne _ _ _ _ (Ne.symm hhn)]
      exact hd
    cases hs : splitEqOnce (pyStrip l) with
    | none => rw [processLine_err st l h1 h2 h3 hs] at hp; cases hp
    | some kv =>
      rw [processLine_kv st l kv h2 h3 hs] at hp
      have hi : ¬ st.item = [] := by rw [hitem]; exact hn
      rw [if_neg hi, Option.some_inj] at hp
      subst hp
      rw [sectionScan_kv d l rest kv h2 h3 hs]
      refine ih ⟨st.item, storeAdd st.store st.item (pyStrip kv.1) (pyStrip kv.2)⟩
        (pyDictInsert d (pyStrip kv.1) (pyStrip kv.2)) hitem ?_ hnoRest hrest
      show pyLookup n (storeAdd st.store st.item (pyStrip kv.1) (pyStrip kv.2)) = _
      rw [hitem]
      exact pyLookup_storeAdd_self _ _ _ _ _ hd

theorem mergeStep_eq (ci acc : Store) (kv : Str × AttrDict) :
    mergeStep ci acc kv = pyDictInsert acc kv.1 (mergeVal ci kv.1 kv.2) := by
  unfold mergeStep mergeVal
  cases pyLookup kv.1 ci <;> rfl

theorem mergeAux_lookup_not_mem (ci cr acc : Store) (k : Str)
    (h : k ∉ cr.map Prod.fst) :
    pyLookup k (cr.foldl (mergeStep ci) acc) = pyLookup k acc := by
  induction cr generalizing acc with
  | nil => rfl
  | cons kv rest ih =>
    simp only [List.map_cons, List.mem_cons, not_or] at h
    rw [List.foldl_cons, ih _ h.2, mergeStep_eq]
    exact pyLookup_pyDictInsert_ne _ _ _ _ h.1

theorem mergeAux_keys (ci cr acc : Store)
    (hnd : (cr.map Prod.fst).Nodup)
    (hdis : ∀ k ∈ cr.map Prod.fst, k ∉ acc.map Prod.fst) :
    (cr.foldl (mergeStep ci) acc).map Prod.fst =
      acc.map Prod.fst ++ cr.map Prod.fst := by
  induction cr generalizing acc with
  | nil => simp
  | cons kv rest ih =>
    simp only [List.map_cons, List.nodup_cons] at hnd
    have hknotin : kv.1 ∉ acc.map Prod.fst := hdis kv.1 (by simp)
    have hkeysStep : (mergeStep ci acc kv).map Prod.fst = acc.map Prod.fst ++ [kv.1] := by
      rw [mergeStep_eq, keys_pyDictInsert, if_neg hknotin]
    rw [List.foldl_cons, ih _ hnd.2 ?_, hkeysStep, List.append_assoc]
    · simp
    · intro k2 hk2
      rw [hkeysStep]
      simp only [List.mem_append, List.mem_singleton]
      push_neg
      refine ⟨hdis k2 (List.mem_cons_of_mem _ hk2), fun he => hnd.1 (he ▸ hk2)⟩

theorem mergeAux_lookup (ci cr acc : Store) (k : Str)
    (hnd : (cr.map Prod.fst).Nodup) :
    pyLookup k (cr.foldl (mergeStep ci) acc) =
      match pyLookup k cr with
      | some v => some (mergeVal ci k v)
      | none => pyLookup k acc := by
  induction cr generalizing acc with
  | nil => simp [pyLookup]
  | cons kv rest ih =>
    simp only [List.map_cons, List.nodup_cons] at hnd
    rw [List.foldl_cons, mergeStep_eq]
    by_cases h : kv.1 = k
    · subst h
      rw [mergeAux_lookup_not_mem ci rest _ kv.1 hnd.1, pyLookup_pyDictInsert_self]
      simp [pyLookup]
    · rw [ih _ hnd.2]
      cases hr : pyLookup k rest with
      | some v => simp [pyLookup, h, hr]
      | none =>
        simp [pyLookup, h, hr, pyLookup_pyDictInsert_ne _ _ _ _ (fun he => h he.symm)]

theorem pyLookup_mem {β : Type} (k : Str) (d : List (Str × β)) (v : β)
    (h : pyLookup k d = some v) : (k, v) ∈ d := by
  induction d with
  | nil => simp [pyLookup] at h
  | cons kv rest ih =>
    by_cases hh : kv.1 = k
    · simp only [pyLookup, if_pos hh, Option.some_inj] at h
      subst hh
      subst h
      exact List.mem_cons_self _ _
    · simp only [pyLookup, if_neg hh] at h
      exact List.mem_cons_of_mem _ (ih h)

theorem parse_config_file_wf (text : Str) (s : Store)
    (h : parse_config_file text = some s) : StoreWF s := by
  unfold parse_config_file parse_config_file_E at h
  rcases hr : runLinesE (splitChar '\x0a' text) ⟨[], []⟩ with ⟨r, e⟩
  rw [hr] at h
  cases r with
  | none => simp at h
  | some stF =>
    simp only [Option.map_some'] at h
    rw [Option.some_inj] at h
    subst h
    refine runLines_wf (splitChar '\x0a' text) ⟨[], []⟩ stF ?_ ?_
    · unfold runLines
      rw [hr]
    · exact ⟨by simp, by simp⟩

/-- C1: for every pair of parsed stores (credentials, config), the merged
result of `parse_configuration_data` has exactly the credentials store's
section names in the credentials store's iteration order; a section absent
from the config store keeps its credentials attributes unchanged while a
section present in both maps to `mergeVal` (the union of the two attribute
dicts with the config value winning on every colliding key, stated by the
last conjunct); sections only in the config store do not appear. -/
theorem c1_merge_exact (t1 t2 : Str) (cred_items config_items : Store)
    (hcr : parse_config_file t1 = some cred_items)
    (hci : parse_config_file t2 = some config_items) :
    (mergeProfiles cred_items config_items).map Prod.fst = cred_items.map Prod.fst
    ∧ (∀ k v, pyLookup k cred_items = some v →
        pyLookup k (mergeProfiles cred_items config_items) =
          some (mergeVal config_items k v))
    ∧ (∀ k, pyLookup k cred_items = none →
        pyLookup k (mergeProfiles cred_items config_items) = none)
    ∧ (∀ k v cv a, pyLookup k cred_items = some v →
        pyLookup k config_items = some cv →
        pyLookup a (pyUnion v cv) =
          match pyLookup a cv with
          | some x => some x
          | none => pyLookup a v) := by
  have hwfcr := parse_config_file_wf t1 cred_items hcr
  have hwfci := parse_config_file_wf t2 config_items hci
  refine ⟨?_, ?_, ?_, ?_⟩
  · unfold mergeProfiles
    rw [mergeAux_keys config_items cred_items [] hwfcr.1 (by intro k hk; simp)]
    simp
  · intro k v hv
    unfold mergeProfiles
    rw [mergeAux_lookup config_items cred_items [] k hwfcr.1, hv]
  · intro k hk
    unfold mergeProfiles
    rw [mergeAux_lookup config_items cred_items [] k hwfcr.1, hk]
    rfl
  · intro k v cv a _ hcv
    exact pyLookup_pyUnion v cv a (hwfci.2 (k, cv) (pyLookup_mem k config_items cv hcv))

theorem c1_witness :
    (mergeProfiles [(str "p", [(str "a", str "1")])]
        [(str "p", [(str "a", str "2"), (str "b", str "3")])]).map Prod.fst =
      [(str "p", [(str "a", str "1")])].map Prod.fst :=
  (c1_merge_exact (str "[p]\na = 1") (str "[p]\na = 2\nb = 3")
    [(str "p", [(str "a", str "1")])]
    [(str "p", [(str "a", str "2"), (str "b", str "3")])]
    (by decide) (by decide)).1

/-- C2: a file containing a line that is non-blank, not a comment, not a
section header, and without `=` makes `parse_config_file` return no data at
all: the parse is all-or-nothing. -/
theorem c2_parse_all_or_nothing (text : Str)
    (h : ∃ l ∈ splitChar '\x0a' text, isBadLine l = true) :
    parse_config_file text = none := by
  have hnone : runLines (splitChar '\x0a' text) ⟨[], []⟩ = none :=
    runLines_none_of_bad _ _ h
  unfold runLines at hnone
  rcases hr : runLinesE (splitChar '\x0a' text) ⟨[], []⟩ with ⟨r, e⟩
  rw [hr] at hnone
  simp only at hnone
  subst hnone
  unfold parse_config_file parse_config_file_E
  simp [hr]

theorem c2_witness : parse_config_file (str "[a]\nx = 1\ngarbage") = none :=
  c2_parse_all_or_nothing (str "[a]\nx = 1\ngarbage") (by decide)

/-- C9: when either store parses successfully but to an empty mapping, the
combined read returns no data (`None`), exactly as on a parse error; in
particular an empty config store suppresses credentials-only sections. -/
theorem c9_empty_store_returns_none (configText credsText : Str)
    (h : parse_config_file configText = some []
       ∨ parse_config_file credsText = some []) :
    parse_configuration_data configText credsText = none := by
  unfold parse_config_file at h
  unfold parse_configuration_data parse_configuration_data_E
  rcases h1 : parse_config_file_E configText with ⟨r1, e1⟩
  rw [h1] at h
  cases r1 with
  | none => simp
  | some ci =>
    by_cases hci : ci.isEmpty
    · simp [hci]
    · rcases h2 : parse_config_file_E credsText with ⟨r2, e2⟩
      rw [h2] at h
      simp only at h
      rcases h with hL | hR
      · rw [Option.some_inj] at hL
        subst hL
        simp at hci
      · subst hR
        simp [hci]

theorem c9_witness : parse_configuration_data (str "") (str "[p]\nx = 1") = none :=
  c9_empty_store_returns_none (str "") (str "[p]\nx = 1") (Or.inl (by decide))

/-- C3: ingesting the sample payload (ARN
`arn:aws:sts::123456789012:assumed-role/MyRole/MySession`, expiration
`2030-01-01T00:00:00+00:00`) yields profile name
`123456789012-MyRole-MySession`, and parsing-and-merging the two appended
store blocks yields exactly that profile with role_name `MyRole` and
session_name `MySession`. -/
theorem c3_round_trip :
    (save_credentials samplePayload).map Prod.fst =
      some (str "123456789012-MyRole-MySession")
    ∧ ((save_credentials samplePayload).bind
        (fun t => parse_configuration_data t.2.2 t.2.1)).map (List.map Prod.fst) =
      some [str "123456789012-MyRole-MySession"]
    ∧ ((save_credentials samplePayload).bind
        (fun t => parse_configuration_data t.2.2 t.2.1)).bind
        (fun m => (pyLookup (str "123456789012-MyRole-MySession") m).bind
          (fun attrs => pyLookup (str "role_name") attrs)) = some (str "MyRole")
    ∧ ((save_credentials samplePayload).bind
        (fun t => parse_configuration_data t.2.2 t.2.1)).bind
        (fun m => (pyLookup (str "123456789012-MyRole-MySession") m).bind
          (fun attrs => pyLookup (str "session_name") attrs)) =
      some (str "MySession") := by
  decide

/-- C4: row status of the presenter: `"N/A"` uncolored without an
expiration attribute; `"Expired N minutes ago"` in red (alert) for negative
seconds with `N = ⌊|s|/60⌋`; whole seconds in red (danger) for
`0 ≤ s < 60`, yellow (warning) for `60 ≤ s < 600`, green (normal) for
`s ≥ 600` — the boundary 600 is green. -/
theorem c4_presenter_status (timeDiff : Str → ℚ) (attrs : AttrDict)
    (ts : Str) (s : ℚ) :
    (pyLookup (str "expiration") attrs = none →
      rowStatus timeDiff attrs = (str "N/A", TermColor.nocolor))
    ∧ (pyLookup (str "expiration") attrs = some ts → timeDiff ts = s → s < 0 →
      rowStatus timeDiff attrs =
        (str "Expired " ++ natToStr (⌊-s / 60⌋).toNat ++ str " minutes ago",
          TermColor.red))
    ∧ (pyLookup (str "expiration") attrs = some ts → timeDiff ts = s →
        0 ≤ s → s < 60 →
      rowStatus timeDiff attrs = (intToStr ⌊s⌋ ++ str " seconds", TermColor.red))
    ∧ (pyLookup (str "expiration") attrs = some ts → timeDiff ts = s →
        60 ≤ s → s < 600 →
      rowStatus timeDiff attrs = (intToStr ⌊s⌋ ++ str " seconds", TermColor.yellow))
    ∧ (pyLookup (str "expiration") attrs = some ts → timeDiff ts = s → 600 ≤ s →
      rowStatus timeDiff attrs = (intToStr ⌊s⌋ ++ str " seconds", TermColor.green)) := by
  refine ⟨?_, ?_, ?_, ?_, ?_⟩
  · intro h
    simp [rowStatus, h]
  · intro h htd hneg
    have hdiv : s / 60 < 0 := div_neg_of_neg_of_pos hneg (by norm_num)
    have htr : pyTruncInt (s / 60) = ⌈s / 60⌉ := by
      unfold pyTruncInt
      rw [if_neg (not_le.mpr hdiv)]
    have hceil : ⌈s / 60⌉ ≤ 0 := Int.ceil_le.mpr (by push_cast; exact le_of_lt hdiv)
    have habs : (⌈s / 60⌉).natAbs = (⌊-s / 60⌋).toNat := by
      have hfn : ⌊-s / 60⌋ = -⌈s / 60⌉ := by
        rw [show -s / 60 = -(s / 60) by ring, Int.floor_neg]
      omega
    simp [rowStatus, h, htd, statusOfSeconds, hneg, htr, habs]
  · intro h htd h0 hlt
    have htr : pyTruncInt s = ⌊s⌋ := by
      unfold pyTruncInt
      rw [if_pos h0]
    have hlt60 : ⌊s⌋ < 60 := Int.floor_lt.mpr (by push_cast; exact hlt)
    have hlt600 : ⌊s⌋ < 600 := by omega
    have hnn : ¬ s < 0 := not_lt.mpr h0
    simp [rowStatus, h, htd, statusOfSeconds, hnn, htr, hlt60, hlt600]
  · intro h htd h60 hlt
    have h0 : (0 : ℚ) ≤ s := le_trans (by norm_num) h60
    have htr : pyTruncInt s = ⌊s⌋ := by
      unfold pyTruncInt
      rw [if_pos h0]
    have hge60 : (60 : Int) ≤ ⌊s⌋ := Int.le_floor.mpr (by push_cast; exact h60)
    have hlt600 : ⌊s⌋ < 600 := Int.floor_lt.mpr (by push_cast; exact hlt)
    have hnlt60 : ¬ ⌊s⌋ < 60 := not_lt.mpr hge60
    have hnn : ¬ s < 0 := not_lt.mpr h0
    simp [rowStatus, h, htd, statusOfSeconds, hnn, htr, hlt600, hnlt60]
  · intro h htd h600
    have h0 : (0 : ℚ) ≤ s := le_trans (by norm_num) h600
    have htr : pyTruncInt s = ⌊s⌋ := by
      unfold pyTruncInt
      rw [if_pos h0]
    have hge600 : (600 : Int) ≤ ⌊s⌋ := Int.le_floor.mpr (by push_cast; exact h600)
    have hnlt600 : ¬ ⌊s⌋ < 600 := not_lt.mpr hge600
    have hnlt60 : ¬ ⌊s⌋ < 60 := by omega
    have hnn : ¬ s < 0 := not_lt.mpr h0
    simp [rowStatus, h, htd, statusOfSeconds, hnn, htr, hnlt600, hnlt60]

theorem c4_witness :
    rowStatus (fun _ => (-300 : ℚ)) [(str "expiration", str "T")] =
      (str "Expired 5 minutes ago", TermColor.red) := by
  have h := (c4_presenter_status (fun _ => (-300 : ℚ))
    [(str "expiration", str "T")] (str "T") (-300)).2.1 (by decide) rfl (by norm_num)
  rw [h]
  have h5 : (⌊-(-300 : ℚ) / 60⌋).toNat = 5 := by
    have hf : ⌊-(-300 : ℚ) / 60⌋ = 5 := by norm_num
    rw [hf]
    rfl
  rw [h5]
  decide

/-- C5: when the JSON decoder rejects the raw input, ingestion prints the
decode-error message containing the offending raw text and both store
contents are byte-for-byte unchanged. -/
theorem c5_decode_error_atomic (decode : Str → Option StsCreds)
    (raw credStore configStore : Str) (h : decode raw = none) :
    ingest decode raw credStore configStore =
      (some (str "[!] Invalid json: " ++ raw), credStore, configStore) := by
  unfold ingest
  rw [h]

theorem c5_witness :
    ingest (fun _ => none) (str "\x7b\"foo\": \x7d") (str "CRED") (str "CONF") =
      (some (str "[!] Invalid json: " ++ str "\x7b\"foo\": \x7d"),
        str "CRED", str "CONF") :=
  c5_decode_error_atomic (fun _ => none) (str "\x7b\"foo\": \x7d")
    (str "CRED") (str "CONF") rfl

/-- C6 counterexample: the ARN `a:b:c:d:e:assumed-role/MyRole` has 6
colon-delimited segments and a resource path of exactly 2 slash-delimited
segments, satisfying the claimed invariant, yet session-name extraction
(`arn.split('/')[2]`) fails. -/
theorem c6_counterexample :
    (splitChar ':' (str "a:b:c:d:e:assumed-role/MyRole")).length ≥ 5
    ∧ (splitChar '/' (arnResourcePath (str "a:b:c:d:e:assumed-role/MyRole"))).length ≥ 2
    ∧ get_session_name_from_arn (str "a:b:c:d:e:assumed-role/MyRole") = none := by
  decide

/-- C6 (amended): all three ARN field extractions succeed exactly when the
full ARN string has at least 5 colon-delimited segments and at least 3
slash-delimited segments; any ARN violating that makes at least one
extraction fail. -/
theorem c6_arn_invariant_amended (arn : Str) :
    ((splitChar ':' arn).length ≥ 5 ∧ (splitChar '/' arn).length ≥ 3) ↔
      (get_account_number_from_arn arn ≠ none
        ∧ get_role_name_from_arn arn ≠ none
        ∧ get_session_name_from_arn arn ≠ none) := by
  unfold get_account_number_from_arn get_role_name_from_arn get_session_name_from_arn
  simp only [ne_eq, List.getElem?_eq_none_iff, not_le]
  omega

theorem c6_witness :
    get_account_number_from_arn (str "arn:aws:sts::1:assumed-role/r/s") ≠ none
    ∧ get_role_name_from_arn (str "arn:aws:sts::1:assumed-role/r/s") ≠ none
    ∧ get_session_name_from_arn (str "arn:aws:sts::1:assumed-role/r/s") ≠ none :=
  (c6_arn_invariant_amended (str "arn:aws:sts::1:assumed-role/r/s")).mp (by decide)

/-- C7: on a config store whose file contains the bad line `badline`, the
interactive read aborts with no table displayed and no prompt, but the
parser's error path enters the pdb debugger (`pdb.set_trace`) and prints
the invalid-line message and the exception text — not a one-line
"cannot load profiles" message. -/
theorem c7_debugger_on_format_error :
    run_ui_E (str "[p]\nbadline") (str "[q]\nx = y") [] =
      (none,
        [Effect.pdbSetTrace,
         Effect.printMsg (str "[!] invalid line in configuration file: badline"),
         Effect.printMsg unpackErrMsg]) := by
  decide

/-- C8 counterexample: in the file `[]`/`a = b`/`[]`/`c = d` the (empty)
section name opened by `[]` appears twice, its last occurrence is followed
by the pair `c = d`, yet the parser maps it to the empty attribute dict —
key/value lines under a falsy (empty) section name are discarded. -/
theorem c8_counterexample :
    parse_config_file (str "[]\na = b\n[]\nc = d") =
      some [(([] : Str), ([] : AttrDict))]
    ∧ sectionScan ([] : AttrDict) [str "c = d"] = [(str "c", str "d")]
    ∧ pyLookup ([] : Str) [(([] : Str), ([] : AttrDict))] ≠
        some [(str "c", str "d")] := by
  decide

/-- C8 (amended to nonempty section names): when a nonempty section name
`n` is opened again by a header line `hl` and no later line opens `n`, the
final store maps `n` to exactly the key/value pairs scanned from the lines
after `hl` (each header resets the section's dict to empty), while `n`
keeps the position it already had in the store built from the earlier
lines. -/
theorem c8_duplicate_sections (L1 L2 : List Str) (hl n : Str) (st1 stF : PState)
    (hhl : isHeaderLine hl = true) (hname : headerName hl = n) (hn : n ≠ [])
    (hno : ∀ l ∈ L2, ¬(isHeaderLine l = true ∧ headerName l = n))
    (h1 : runLines L1 ⟨[], []⟩ = some st1)
    (hmem : n ∈ st1.store.map Prod.fst)
    (hF : runLines (L1 ++ hl :: L2) ⟨[], []⟩ = some stF) :
    pyLookup n stF.store = some (sectionScan [] L2)
    ∧ firstPos n (stF.store.map Prod.fst) = firstPos n (st1.store.map Prod.fst) := by
  rw [runLines_append, h1] at hF
  replace hF : runLines (hl :: L2) st1 = some stF := hF
  constructor
  · rcases runLines_cons_some hl L2 st1 stF hF with ⟨st2, hp, hrest⟩
    have hhead : (pyStrip hl).head? = some '[' := (isHeaderLine_iff hl).mp hhl
    rw [processLine_header st1 hl hhead, Option.some_inj] at hp
    subst hp
    refine runLines_section n L2
      ⟨headerName hl, pyDictInsert st1.store (headerName hl) ([] : AttrDict)⟩
      stF [] hname hn ?_ hno hrest
    show pyLookup n (pyDictInsert st1.store (headerName hl) ([] : AttrDict)) = some []
    rw [hname]
    exact pyLookup_pyDictInsert_self _ _ _
  · rcases runLines_keys (hl :: L2) st1 stF hF with ⟨t, ht⟩
    rw [ht]
    exact firstPos_append n _ t hmem

theorem c8_witness :
    pyLookup (str "p") (PState.mk (str "p") [(str "p", [(str "b", str "2")])]).store =
      some (sectionScan ([] : AttrDict) [str "b = 2"])
    ∧ firstPos (str "p")
        ((PState.mk (str "p") [(str "p", [(str "b", str "2")])]).store.map Prod.fst) =
      firstPos (str "p")
        ((PState.mk (str "p") [(str "p", [(str "a", str "1")])]).store.map Prod.fst) :=
  c8_duplicate_sections [str "[p]", str "a = 1"] [str "b = 2"] (str "[p]") (str "p")
    (PState.mk (str "p") [(str "p", [(str "a", str "1")])])
    (PState.mk (str "p") [(str "p", [(str "b", str "2")])])
    (by decide) (by decide) (by decide) (by decide) (by decide) (by decide) (by decide)

theorem selectLoop_interrupt (n : Nat) (rest : List InputEvent) :
    selectLoop n (InputEvent.interrupt :: rest) = SelResult.cancelled := rfl

theorem selectLoop_text (n : Nat) (s : Str) (rest : List InputEvent) :
    selectLoop n (InputEvent.text s :: rest) =
      match pyInt? s with
      | none => selectLoop n rest
      | some k =>
        if 1 ≤ k ∧ k ≤ (n : Int) then SelResult.selected k
        else selectLoop n rest := by
  cases hp : pyInt? s with
  | none =>
    show (selectLoopE n (InputEvent.text s :: rest)).1 = _
    simp only [selectLoopE, hp]
    rfl
  | some k =>
    show (selectLoopE n (InputEvent.text s :: rest)).1 = _
    by_cases hc : 1 ≤ k ∧ k ≤ (n : Int)
    · simp [selectLoopE, hp, hc]
    · simp only [selectLoopE, hp, if_neg hc]
      rfl

theorem run_ui_launch_eq (cfg cr : Str) (inputs : List InputEvent) :
    run_ui_launch cfg cr inputs =
      match parse_configuration_data cfg cr with
      | none => none
      | some data =>
        if data.isEmpty then none
        else if (displayedNames data).length = 0 then none
        else
          match selectLoop (displayedNames data).length inputs with
          | SelResult.selected r => (displayedNames data)[r.toNat - 1]?
          | _ => none := by
  unfold run_ui_launch run_ui_E parse_configuration_data selectLoop
  rcases hd : parse_configuration_data_E cfg cr with ⟨od, ed⟩
  cases od with
  | none => simp
  | some data =>
    by_cases he : data.isEmpty
    · simp [he]
    · by_cases hz : (displayedNames data).length = 0
      · simp [he, hz]
      · rcases hs : selectLoopE (displayedNames data).length inputs with ⟨res, es⟩
        cases res <;> simp [he, hz, hs]

/-- C10: the selection loop only ever terminates with a chosen number in
`1..n` (interrupt and exhausted input launch nothing), so the index access
into the displayed name list is in range and the profile handed to the
session launcher is always one of the displayed names. -/
theorem c10_selection_in_range :
    (∀ (n : Nat) (inputs : List InputEvent) (r : Int),
      selectLoop n inputs = SelResult.selected r → 1 ≤ r ∧ r ≤ (n : Int))
    ∧ (∀ (configText credsText : Str) (inputs : List InputEvent) (p : Str),
      run_ui_launch configText credsText inputs = some p →
      p ∈ profileNames configText credsText) := by
  have hpart1 : ∀ (n : Nat) (inputs : List InputEvent) (r : Int),
      selectLoop n inputs = SelResult.selected r → 1 ≤ r ∧ r ≤ (n : Int) := by
    intro n inputs
    induction inputs with
    | nil =>
      intro r h
      exact absurd h (by simp [selectLoop, selectLoopE])
    | cons e rest ih =>
      intro r h
      cases e with
      | interrupt =>
        rw [selectLoop_interrupt] at h
        cases h
      | text s =>
        rw [selectLoop_text] at h
        cases hp : pyInt? s with
        | none =>
          rw [hp] at h
          exact ih r h
        | some k =>
          rw [hp] at h
          replace h : (if 1 ≤ k ∧ k ≤ (n : Int) then SelResult.selected k
              else selectLoop n rest) = SelResult.selected r := h
          by_cases hc : 1 ≤ k ∧ k ≤ (n : Int)
          · rw [if_pos hc] at h
            cases h
            exact hc
          · rw [if_neg hc] at h
            exact ih r h
  refine ⟨hpart1, ?_⟩
  intro cfg cr inputs p h
  rw [run_ui_launch_eq] at h
  cases hd : parse_configuration_data cfg cr with
  | none =>
    simp only [hd] at h
    cases h
  | some data =>
    simp only [hd] at h
    by_cases he : data.isEmpty
    · rw [if_pos he] at h
      cases h
    · rw [if_neg he] at h
      by_cases hz : (displayedNames data).length = 0
      · rw [if_pos hz] at h
        cases h
      · rw [if_neg hz] at h
        cases hs : selectLoop (displayedNames data).length inputs with
        | selected r =>
          simp only [hs] at h
          have hmem : p ∈ displayedNames data := List.getElem?_mem h
          unfold profileNames
          rw [hd]
          exact hmem
        | cancelled =>
          simp only [hs] at h
          cases h
        | exhausted =>
          simp only [hs] at h
          cases h

theorem c10_witness :
    (str "p") ∈ profileNames (str "[p]\nregion = r") (str "[p]\na = 1") :=
  c10_selection_in_range.2 (str "[p]\nregion = r") (str "[p]\na = 1")
    [InputEvent.text (str "1")] (str "p") (by decide)
